import Mathlib

/-!
# Verification of the Maya intake-JSON flattening scripts

A shallow embedding, in Lean 4, of the JavaScript (Google Apps Script)
sources of the MayaParser scripts:

* `jsonParser.js` — `flattenIntakeJSON`, `isComplexType`,
  `processStandardQuestion`, `processComplexType`, `formatValidation`,
  `formatMapsTo`, `formatExamples`, `formatOptions`;
* `main.js` — `processIntakeJSON`, `getVersionedSheetName`,
  `checkDuplicateIds`.

JSON/JavaScript values are modelled by the inductive type `JSValue`
(numbers are modelled as integers; floating point, `NaN` and `Symbol`
values are outside the model).  JavaScript runtime failures
(`TypeError` on property access of `null`/`undefined`, calling a
missing method, `ReferenceError` on an unbound identifier) are
modelled by `Except String`; code that cannot fail is embedded as a
total function.  The external Google-Sheets collaborators
(`SpreadsheetApp`, `buildIntakeSheet`, `lockSchema`, `addMetadata`)
are modelled as always succeeding; the active spreadsheet's sheet-name
namespace is passed explicitly as a list of existing names.
-/

/-! ## Decimal printing of numbers

JavaScript stringifies integral numbers in decimal (`` `${n}` ``).  We
embed this with an explicit fuel-based digit extraction so that all
definitions compute by kernel reduction, and prove the printer
injective (needed for the versioned-sheet-name analysis).
-/

/-- The decimal digit characters. Mirrors how a JS engine prints each digit. -/
def digitChar (d : Nat) : Char :=
  match d with
  | 0 => '0' | 1 => '1' | 2 => '2' | 3 => '3' | 4 => '4'
  | 5 => '5' | 6 => '6' | 7 => '7' | 8 => '8' | 9 => '9'
  | _ => '*'

/-- Little-endian decimal digits of `n`, with explicit fuel. -/
def natDigitsAux : Nat → Nat → List Nat
  | 0, _ => []
  | fuel + 1, n => if n = 0 then [] else n % 10 :: natDigitsAux fuel (n / 10)

/-- Decimal representation of a natural number, as printed by `` `${n}` ``. -/
def natToString (n : Nat) : String :=
  if n = 0 then "0"
  else String.mk (((natDigitsAux n n).reverse).map digitChar)

/-- Decimal representation of an integer, as printed by `` `${n}` `` in JS. -/
def intToString : Int → String
  | .ofNat n => natToString n
  | .negSucc n => "-" ++ natToString (n + 1)

/-- Value of a little-endian decimal digit list. -/
def fromDigits : List Nat → Nat
  | [] => 0
  | d :: ds => d + 10 * fromDigits ds

/-! ## The JavaScript/JSON value model

`JSValue` models the values the scripts manipulate: the result of
`JSON.parse` (null, booleans, integral numbers, strings, arrays,
objects) plus `undefined`, which property access on a missing key
produces.  Objects are insertion-ordered key/value lists (as produced
by `JSON.parse`, keys unique).  Arrays and objects are represented by
the mutually inductive `JSList`/`JSProps` so that all recursive
functions are structural and compute by kernel reduction.
-/

mutual
inductive JSValue where
  | undefined
  | null
  | bool (b : Bool)
  | num (n : Int)
  | str (s : String)
  | arr (elems : JSList)
  | obj (props : JSProps)
deriving DecidableEq

inductive JSList where
  | nil
  | cons (hd : JSValue) (tl : JSList)
deriving DecidableEq

inductive JSProps where
  | nil
  | cons (key : String) (val : JSValue) (tl : JSProps)
deriving DecidableEq
end

/-- Convert a `JSList` to an ordinary Lean list. -/
def JSList.toList : JSList → List JSValue
  | .nil => []
  | .cons v tl => v :: tl.toList

/-- Convert a Lean list to a `JSList` (used to write concrete inputs). -/
def JSList.ofList : List JSValue → JSList
  | [] => .nil
  | v :: tl => .cons v (JSList.ofList tl)

/-- Convert a `JSProps` to an ordinary Lean association list. -/
def JSProps.toList : JSProps → List (String × JSValue)
  | .nil => []
  | .cons k v tl => (k, v) :: tl.toList

/-- Convert a Lean association list to a `JSProps`. -/
def JSProps.ofList : List (String × JSValue) → JSProps
  | [] => .nil
  | (k, v) :: tl => .cons k v (JSProps.ofList tl)

/-- Array literal helper for concrete inputs. -/
def JSValue.arrL (l : List JSValue) : JSValue := .arr (JSList.ofList l)

/-- Object literal helper for concrete inputs. -/
def JSValue.objL (l : List (String × JSValue)) : JSValue := .obj (JSProps.ofList l)

/-- JavaScript truthiness: `false`, `0`, `""`, `null`, `undefined` are falsy;
every other value (including `[]` and `\x7b\x7d`) is truthy. -/
def truthy : JSValue → Bool
  | .undefined => false
  | .null => false
  | .bool b => b
  | .num n => decide (n ≠ 0)
  | .str s => decide (s ≠ "")
  | .arr _ => true
  | .obj _ => true

/-- A value is defined when it is neither `null` nor `undefined`
(property access on it cannot throw). -/
def jsDefined : JSValue → Bool
  | .undefined => false
  | .null => false
  | _ => true

/-- The JavaScript `typeof` operator (note `typeof null === "object"`). -/
def typeofStr : JSValue → String
  | .undefined => "undefined"
  | .null => "object"
  | .bool _ => "boolean"
  | .num _ => "number"
  | .str _ => "string"
  | .arr _ => "object"
  | .obj _ => "object"

/-- The JavaScript `a || b` operator on values. -/
def jsOr (a b : JSValue) : JSValue := if truthy a then a else b

/-- Property lookup in an object's property list. -/
def lookupProps : JSProps → String → JSValue
  | .nil, _ => .undefined
  | .cons k v tl, key => if k = key then v else lookupProps tl key

/-- Total property access: objects yield the stored value or `undefined`;
every other receiver yields `undefined`.  (Only used where the receiver
is known not to be `null`/`undefined`; the embedded code itself uses
the throwing `getProp`.) -/
def getPropD (v : JSValue) (key : String) : JSValue :=
  match v with
  | .obj ps => lookupProps ps key
  | _ => .undefined

/-- Property access `v.key` as executed: throws a `TypeError` when the
receiver is `null` or `undefined`, otherwise yields `getPropD v key`.
(None of the accessed keys is a built-in array/string property.) -/
def getProp (v : JSValue) (key : String) : Except String JSValue :=
  match v with
  | .null => .error ("TypeError: Cannot read properties of null (reading " ++ key ++ ")")
  | .undefined => .error ("TypeError: Cannot read properties of undefined (reading " ++ key ++ ")")
  | v => .ok (getPropD v key)

/-- Calling an array method (`forEach`, `join`) on a value: only arrays
have it; on `null`/`undefined` property access itself throws; on any
other value the property is `undefined` and the call throws. -/
def asArray (v : JSValue) (method : String) : Except String JSList :=
  match v with
  | .arr xs => .ok xs
  | .null => .error ("TypeError: Cannot read properties of null (reading " ++ method ++ ")")
  | .undefined => .error ("TypeError: Cannot read properties of undefined (reading " ++ method ++ ")")
  | _ => .error ("TypeError: " ++ method ++ " is not a function")

mutual
/-- String conversion as performed by template literals and `String(v)`:
`undefined`/`null` print as words, numbers in decimal, arrays as their
comma-join (elements converted with `null`/`undefined` as empty), plain
objects as `[object Object]`. -/
def jsToStr : JSValue → String
  | .undefined => "undefined"
  | .null => "null"
  | .bool b => cond b "true" "false"
  | .num n => intToString n
  | .str s => s
  | .obj _ => "[object Object]"
  | .arr xs => jsJoinComma xs

/-- `Array.prototype.toString`, i.e. `join(",")`. -/
def jsJoinComma : JSList → String
  | .nil => ""
  | .cons v .nil => jsElemStr v
  | .cons v (.cons w tl) => jsElemStr v ++ "," ++ jsJoinComma (.cons w tl)

/-- Element conversion used by `Array.prototype.join`:
`null`/`undefined` become the empty string. -/
def jsElemStr : JSValue → String
  | .undefined => ""
  | .null => ""
  | .bool b => cond b "true" "false"
  | .num n => intToString n
  | .str s => s
  | .obj _ => "[object Object]"
  | .arr xs => jsJoinComma xs
end

/-- `Array.prototype.join(sep)` on an element list. -/
def jsJoin (sep : String) (xs : List JSValue) : String :=
  String.intercalate sep (xs.map jsElemStr)

/-- `Object.entries`: own enumerable entries of objects; index/value
pairs for arrays; index/character pairs for strings; empty for numbers
and booleans.  (All call sites guard the argument's truthiness, so the
throwing `null`/`undefined` case is unreachable.) -/
def jsEntries (v : JSValue) : List (String × JSValue) :=
  match v with
  | .obj ps => ps.toList
  | .arr xs => (xs.toList.enum).map (fun p => (natToString p.1, p.2))
  | .str s => (s.data.enum).map (fun p => (natToString p.1, JSValue.str (String.mk [p.2])))
  | _ => []

/-- Effectful map in `Except`, stopping at the first error — the
evaluation order of `Array.prototype.map`/`forEach` over callbacks
that may throw. -/
def mapME {α β : Type} (f : α → Except String β) : List α → Except String (List β)
  | [] => .ok []
  | x :: xs =>
    match f x with
    | .error e => .error e
    | .ok y =>
      match mapME f xs with
      | .error e => .error e
      | .ok ys => .ok (y :: ys)

/-! ## Field formatters (`jsonParser.js`, lines 153–228) -/

/-- `formatValidation` (`jsonParser.js` 158–176): falsy → `""`; string
unchanged; number `n` → `"max_length: n"`; otherwise `typeof` `"object"`
(arrays included) → `Object.entries` rendered `"k: v"` comma-joined;
anything else (a `true` boolean) → `""`. -/
def formatValidation (validation : JSValue) : String :=
  if truthy validation = false then ""
  else match validation with
    | .str s => s
    | .num n => "max_length: " ++ intToString n
    | .arr xs => String.intercalate ", "
        ((jsEntries (.arr xs)).map (fun kv => kv.1 ++ ": " ++ jsToStr kv.2))
    | .obj ps => String.intercalate ", "
        ((jsEntries (.obj ps)).map (fun kv => kv.1 ++ ": " ++ jsToStr kv.2))
    | _ => ""

/-- `formatMapsTo` (`jsonParser.js` 183–191): falsy → `""`; array →
`join(", ")`; otherwise `String(mapsTo)`. -/
def formatMapsTo (mapsTo : JSValue) : String :=
  if truthy mapsTo = false then ""
  else match mapsTo with
    | .arr xs => jsJoin ", " xs.toList
    | v => jsToStr v

/-- `formatExamples` (`jsonParser.js` 198–206): falsy → `""`; array →
`join(" | ")`; otherwise `String(examples)`. -/
def formatExamples (examples : JSValue) : String :=
  if truthy examples = false then ""
  else match examples with
    | .arr xs => jsJoin " | " xs.toList
    | v => jsToStr v

/-- The callback `opt => opt.value || opt.label` of
`formatOptions` (`jsonParser.js` 223): throws when `opt` is
`null`/`undefined`. -/
def optionEntry (opt : JSValue) : Except String JSValue :=
  match getProp opt "value" with
  | .error e => .error e
  | .ok v =>
    match getProp opt "label" with
    | .error e => .error e
    | .ok lab => .ok (jsOr v lab)

/-- `formatOptions` (`jsonParser.js` 213–228): falsy → `""`; for an
array, dispatch on `typeof options[0]`: `"string"` → `join(" | ")`;
`"object"` → `options.map(opt => opt.value || opt.label).join(" | ")`
— this `.map` throws a `TypeError` when it reaches a `null`/`undefined`
element; any other first-element type, or a truthy non-array, → `""`. -/
def formatOptions (options : JSValue) : Except String String :=
  if truthy options = false then .ok ""
  else match options with
    | .arr xs =>
      if typeofStr (xs.toList.getD 0 .undefined) = "string" then .ok (jsJoin " | " xs.toList)
      else if typeofStr (xs.toList.getD 0 .undefined) = "object" then
        match mapME optionEntry xs.toList with
        | .error e => .error e
        | .ok mapped => .ok (jsJoin " | " mapped)
      else .ok ""
    | _ => .ok ""

/-! ## Row projection and flattening (`jsonParser.js`, lines 9–151) -/

/-- `isComplexType` (`jsonParser.js` 41–50): `complexTypes.includes(type)`
— strict-equality membership, so only these five exact strings match. -/
def isComplexType (t : JSValue) : Bool :=
  match t with
  | .str s => s = "service_object" || s = "testimonial_object"
      || s = "social_links_object" || s = "text_array" || s = "file_upload"
  | _ => false

/-- `processStandardQuestion` (`jsonParser.js` 58–73): the 12-field row
`[section_id, section_name, question_id, question, context, type,
required, validation, maps_to, default, examples, options]`.
Fails only when a receiver is `null`/`undefined` or `formatOptions`
throws. -/
def processStandardQuestion (question sect : JSValue) : Except String (List JSValue) := do
  let sid ← getProp sect "section_id"
  let sname ← getProp sect "section_name"
  let qid ← getProp question "id"
  let qq ← getProp question "question"
  let qctx ← getProp question "context"
  let qtype ← getProp question "type"
  let qreq ← getProp question "required"
  let qval ← getProp question "validation"
  let qmaps ← getProp question "maps_to"
  let qdef ← getProp question "default"
  let qex ← getProp question "examples"
  let qopt ← getProp question "options"
  let optStr ← formatOptions qopt
  pure [jsOr sid (.str ""), jsOr sname (.str ""), jsOr qid (.str ""),
    jsOr qq (.str ""), jsOr qctx (.str ""), jsOr qtype (.str "text"),
    (match qreq with | .undefined => .bool true | r => r),
    .str (formatValidation qval), .str (formatMapsTo qmaps),
    jsOr qdef (.str ""), .str (formatExamples qex), .str optStr]

/-- One child row of the `service_object`/`testimonial_object` branch
(`jsonParser.js` 91–104). -/
def serviceChildEntry (question sect : JSValue) (fieldName : String)
    (fieldConfig : JSValue) : Except String (List JSValue) := do
  let sid ← getProp sect "section_id"
  let sname ← getProp sect "section_name"
  let qid ← getProp question "id"
  let qq ← getProp question "question"
  let qctx ← getProp question "context"
  let ftype ← getProp fieldConfig "type"
  let freq ← getProp fieldConfig "required"
  let fval ← getProp fieldConfig "validation"
  let fml ← getProp fieldConfig "max_length"
  let qmaps ← getProp question "maps_to"
  let fdef ← getProp fieldConfig "default"
  pure [jsOr sid (.str ""), jsOr sname (.str ""),
    .str (jsToStr qid ++ "." ++ fieldName),
    .str (jsToStr qq ++ " - " ++ fieldName),
    jsOr qctx (.str ""),
    jsOr ftype (.str "text"),
    jsOr freq (.bool false),
    .str (formatValidation (jsOr fval fml)),
    .str (formatMapsTo qmaps ++ "." ++ fieldName),
    jsOr fdef (.str ""),
    .str "", .str ""]

/-- One child row of the `social_links_object` branch
(`jsonParser.js` 112–125). -/
def socialChildEntry (question sect : JSValue) (platform : String)
    (config : JSValue) : Except String (List JSValue) := do
  let sid ← getProp sect "section_id"
  let sname ← getProp sect "section_name"
  let qid ← getProp question "id"
  let qq ← getProp question "question"
  let qctx ← getProp question "context"
  let ctype ← getProp config "type"
  let creq ← getProp config "required"
  let qmaps ← getProp question "maps_to"
  pure [jsOr sid (.str ""), jsOr sname (.str ""),
    .str (jsToStr qid ++ "." ++ platform),
    .str (jsToStr qq ++ " - " ++ platform),
    jsOr qctx (.str ""),
    jsOr ctype (.str "url"),
    jsOr creq (.bool false),
    .str "format: url",
    .str (formatMapsTo qmaps ++ "." ++ platform),
    .str "", .str "", .str ""]

/-- `processComplexType` (`jsonParser.js` 81–151): parent row first,
then per-type expansion; `text_array` and `file_upload` patch the
parent row's validation field (index 7) in place. -/
def processComplexType (question sect : JSValue) : Except String (List (List JSValue)) := do
  let parent ← processStandardQuestion question sect
  let qtype ← getProp question "type"
  let childRows1 ←
    if qtype = .str "service_object" || qtype = .str "testimonial_object" then do
      let fields ← getProp question "fields"
      if truthy fields then
        mapME (fun kv => serviceChildEntry question sect kv.1 kv.2) (jsEntries fields)
      else pure []
    else pure []
  let childRows2 ←
    if qtype = .str "social_links_object" then do
      let fields ← getProp question "fields"
      if truthy fields then
        mapME (fun kv => socialChildEntry question sect kv.1 kv.2) (jsEntries fields)
      else pure []
    else pure []
  let rows := parent :: (childRows1 ++ childRows2)
  let rows ←
    if qtype = .str "text_array" then do
      let mi ← getProp question "max_items"
      let parentRow := rows.headD []
      pure (parentRow.set 7 (.str ("max_items: " ++ jsToStr (jsOr mi (.num 10))
        ++ ", " ++ jsToStr (parentRow.getD 7 .undefined))) :: rows.tail)
    else pure rows
  let rows ←
    if qtype = .str "file_upload" then do
      let ft ← getProp question "file_types"
      let part1 ←
        if truthy ft then do
          let l ← asArray ft "join"
          pure ["file_types: " ++ jsJoin "," l.toList]
        else pure []
      let ms ← getProp question "max_size"
      let parts := part1 ++ (if truthy ms then ["max_size: " ++ jsToStr ms] else [])
      let parentRow := rows.headD []
      pure (parentRow.set 7 (.str (String.intercalate ", " parts)) :: rows.tail)
    else pure rows
  pure rows

/-- The value returned by `flattenIntakeJSON`
(`jsonParser.js` 30–33): the row list plus `sectionCount`. -/
structure FlattenResult where
  rows : List (List JSValue)
  sectionCount : Nat
deriving DecidableEq

/-- The per-question body of the `forEach` in `flattenIntakeJSON`
(`jsonParser.js` 15–26): route on `isComplexType(question.type)`, emit
one standard row or the complex expansion. -/
def flattenQuestion (sect question : JSValue) : Except String (List (List JSValue)) := do
  let qtype ← getProp question "type"
  if isComplexType qtype then processComplexType question sect
  else do
    let row ← processStandardQuestion question sect
    pure [row]

/-- The per-section body of the outer `forEach` in `flattenIntakeJSON`
(`jsonParser.js` 13–27): walk `section.questions` in order. -/
def flattenSection (sect : JSValue) : Except String (List (List JSValue)) := do
  let qsVal ← getProp sect "questions"
  let qs ← asArray qsVal "forEach"
  let rss ← mapME (flattenQuestion sect) qs.toList
  pure rss.flatten

/-- `flattenIntakeJSON` (`jsonParser.js` 9–34): walk
`conversation_flow.sections`, within each section walk `questions`,
appending the standard row or the complex expansion in encounter
order. -/
def flattenIntakeJSON (intakeData : JSValue) : Except String FlattenResult := do
  let cf ← getProp intakeData "conversation_flow"
  let sectionsVal ← getProp cf "sections"
  let sections ← asArray sectionsVal "forEach"
  let rowss ← mapME flattenSection sections.toList
  pure ⟨rowss.flatten, sections.toList.length⟩

/-! ## Sheet naming, duplicate detection, orchestration (`main.js`) -/

/-- The candidate name `` `${baseName}_v${version}` ``
(`main.js` 99, 103). -/
def versionedName (baseName : String) (version : Nat) : String :=
  baseName ++ "_v" ++ natToString version

/-- The `while (ss.getSheetByName(...)) version++` probe of
`main.js` 98–101, with explicit fuel.  The spreadsheet has finitely
many sheets, so with fuel `existing.length + 1` the loop provably
exits before the fuel does (the fuel-exhausted fallback is dead code —
see `probeVersion_spec` and the pigeonhole argument). -/
def probeVersion (existing : List String) (baseName : String) : Nat → Nat → String
  | 0, version => versionedName baseName version
  | fuel + 1, version =>
    if versionedName baseName version ∈ existing then
      probeVersion existing baseName fuel (version + 1)
    else versionedName baseName version

/-- `getVersionedSheetName` (`main.js` 89–104).  The active
spreadsheet's sheet-name namespace (`ss.getSheetByName` being truthy)
is modelled by membership in `existing`. -/
def getVersionedSheetName (templateName : String) (existing : List String)
    (forceNew : Bool) : String :=
  let baseName := "Intake_" ++ templateName
  if !forceNew && !(baseName ∈ existing) then baseName
  else probeVersion existing baseName (existing.length + 1) 2

/-- The `seen`/`duplicates` accumulation loop of `checkDuplicateIds`
(`main.js` 116–121): every occurrence after an identifier's first is
pushed onto `duplicates`. -/
def collectDups : List JSValue → List JSValue → List JSValue → List JSValue
  | [], _, dups => dups
  | x :: rest, seen, dups =>
    collectDups rest (if x ∈ seen then seen else seen ++ [x])
      (if x ∈ seen then dups ++ [x] else dups)

/-- `[...new Set(duplicates)]` (`main.js` 123): deduplicate keeping
first-insertion order. -/
def dedupKeepFirst : List JSValue → List JSValue → List JSValue
  | [], _ => []
  | x :: xs, seen =>
    if x ∈ seen then dedupKeepFirst xs seen else x :: dedupKeepFirst xs (x :: seen)

/-- `checkDuplicateIds` (`main.js` 111–124): map each row to its
field 2 (`row[2]`, the question id; `undefined` when the row is
shorter), collect repeats, deduplicate the report.  JS `Set` equality
(SameValueZero) is modelled by structural equality, which agrees with
it on primitive values such as the string identifiers the rows
carry. -/
def checkDuplicateIds (rows : List (List JSValue)) : List JSValue :=
  let ids := rows.map (fun row => row.getD 2 .undefined)
  dedupKeepFirst (collectDups ids [] []) []

/-- The result object of `processIntakeJSON`: `\x7bsuccess: true,
sheetName, rowCount, message\x7d` or `\x7bsuccess: false, error\x7d`. -/
inductive ProcessResult where
  | ok (sheetName : String) (rowCount : Nat) (message : String)
  | fail (error : String)
deriving DecidableEq

/-- `processIntakeJSON` (`main.js` 33–81), from the already-parsed
document (the `JSON.parse` stage is modelled by taking the parsed
`JSValue`; a parse failure is a `ParseError` result before any of
this runs).  `buildIntakeSheet`, `lockSchema` and `addMetadata` are
external sheet-service collaborators modelled as succeeding.  The
success object at lines 68–73 reads the identifier `rows`, which is
not bound anywhere in scope (the row list lives in `parsedData.rows`),
so evaluating it throws `ReferenceError: rows is not defined`, which
the surrounding `try/catch` converts into a failure result. -/
def processIntakeJSONRun (intakeData : JSValue) (existing : List String)
    (forceNewVersion : Bool) : Except String ProcessResult := do
  let tn ← getProp intakeData "template_name"
  if truthy tn = false then
    throw "Missing template_name in JSON"
  let cf ← getProp intakeData "conversation_flow"
  if truthy cf = false then
    throw "Invalid JSON structure - missing conversation_flow.sections"
  let sectionsVal ← getProp cf "sections"
  if truthy sectionsVal = false then
    throw "Invalid JSON structure - missing conversation_flow.sections"
  let tn2 ← getProp intakeData "template_name"
  let sheetName := getVersionedSheetName (jsToStr tn2) existing forceNewVersion
  let parsedData ← flattenIntakeJSON intakeData
  let duplicates := checkDuplicateIds parsedData.rows
  if duplicates.length > 0 then
    throw ("Duplicate question IDs found: " ++ jsJoin ", " duplicates)
  let _ := sheetName
  throw "rows is not defined"

/-- The result conversion performed by the `try/catch` of
`processIntakeJSON`: a thrown error becomes `\x7bsuccess: false,
error\x7d`. -/
def processIntakeJSON (intakeData : JSValue) (existing : List String)
    (forceNewVersion : Bool) : ProcessResult :=
  match processIntakeJSONRun intakeData existing forceNewVersion with
  | .ok r => r
  | .error e => .fail e

/-- The root-level structural check of the orchestrator
(`main.js` 39–45) in isolation: `template_name` truthy,
`conversation_flow` truthy, `conversation_flow.sections` truthy, and
no check throws. -/
def rootCheckPasses (intakeData : JSValue) : Bool :=
  match getProp intakeData "template_name" with
  | .error _ => false
  | .ok tn =>
    truthy tn &&
      match getProp intakeData "conversation_flow" with
      | .error _ => false
      | .ok cf => truthy cf && truthy (getPropD cf "sections")

/-! ## Shape predicates

Decidable predicates carving out the documents on which the flattening
stage provably cannot throw.  They correspond to the specification's
data model: sections and questions are arrays of objects, nested field
configurations are non-null, `file_types` is an array when given, and
`options` does not reach the throwing branch of `formatOptions`. -/

/-- `formatOptions` cannot throw: the argument is not an array whose
first element has `typeof` `"object"` while some element is
`null`/`undefined`. -/
def optionsSafe (options : JSValue) : Bool :=
  match options with
  | .arr xs =>
    if typeofStr (xs.toList.getD 0 .undefined) = "object" then
      xs.toList.all jsDefined
    else true
  | _ => true

/-- Every field configuration reachable by `Object.entries(fields)` is
non-`null`/`undefined` (or `fields` is falsy and the branch is
skipped). -/
def fieldsSafe (fields : JSValue) : Bool :=
  truthy fields = false || (jsEntries fields).all (fun kv => jsDefined kv.2)

/-- A question value on which the per-question projection cannot
throw. -/
def questionSafe (question : JSValue) : Bool :=
  jsDefined question &&
  optionsSafe (getPropD question "options") &&
  (match getPropD question "type" with
   | .str t =>
     (if t = "service_object" || t = "testimonial_object" || t = "social_links_object"
      then fieldsSafe (getPropD question "fields") else true) &&
     (if t = "file_upload" then
        (match getPropD question "file_types" with
         | .arr _ => true
         | v => truthy v = false)
      else true)
   | _ => true)

/-- A section value on which the per-section walk cannot throw. -/
def sectionSafe (sect : JSValue) : Bool :=
  jsDefined sect &&
  (match getPropD sect "questions" with
   | .arr qs => qs.toList.all questionSafe
   | _ => false)

/-- A document on which `flattenIntakeJSON` provably succeeds: the
spec's data-model shape (§3) — an array of sections, each with an
array of questions, all safe in the senses above. -/
def wellShapedDoc (intakeData : JSValue) : Bool :=
  jsDefined intakeData &&
  jsDefined (getPropD intakeData "conversation_flow") &&
  (match getPropD (getPropD intakeData "conversation_flow") "sections" with
   | .arr secs => secs.toList.all sectionSafe
   | _ => false)

/-! ## Derived closed forms

Total functions giving the value the projection produces on inputs on
which it cannot throw; the bridge lemmas below prove the monadic
embeddings equal to them. -/

/-- The value carried by `formatOptions` when it does not throw. -/
def formatOptionsD (options : JSValue) : String :=
  match formatOptions options with
  | .ok s => s
  | .error _ => ""

/-- The 12-field standard row as a total function of the question and
section values (defined receivers assumed). -/
def stdRow (question sect : JSValue) : List JSValue :=
  [jsOr (getPropD sect "section_id") (.str ""),
   jsOr (getPropD sect "section_name") (.str ""),
   jsOr (getPropD question "id") (.str ""),
   jsOr (getPropD question "question") (.str ""),
   jsOr (getPropD question "context") (.str ""),
   jsOr (getPropD question "type") (.str "text"),
   (match getPropD question "required" with | .undefined => .bool true | r => r),
   .str (formatValidation (getPropD question "validation")),
   .str (formatMapsTo (getPropD question "maps_to")),
   jsOr (getPropD question "default") (.str ""),
   .str (formatExamples (getPropD question "examples")),
   .str (formatOptionsD (getPropD question "options"))]

/-- The `service_object`/`testimonial_object` child row as a total
function (defined receivers assumed). -/
def serviceChildRowD (question sect : JSValue) (fieldName : String)
    (fieldConfig : JSValue) : List JSValue :=
  [jsOr (getPropD sect "section_id") (.str ""),
   jsOr (getPropD sect "section_name") (.str ""),
   .str (jsToStr (getPropD question "id") ++ "." ++ fieldName),
   .str (jsToStr (getPropD question "question") ++ " - " ++ fieldName),
   jsOr (getPropD question "context") (.str ""),
   jsOr (getPropD fieldConfig "type") (.str "text"),
   jsOr (getPropD fieldConfig "required") (.bool false),
   .str (formatValidation (jsOr (getPropD fieldConfig "validation")
     (getPropD fieldConfig "max_length"))),
   .str (formatMapsTo (getPropD question "maps_to") ++ "." ++ fieldName),
   jsOr (getPropD fieldConfig "default") (.str ""),
   .str "", .str ""]

/-- The `social_links_object` child row as a total function (defined
receivers assumed). -/
def socialChildRowD (question sect : JSValue) (platform : String)
    (config : JSValue) : List JSValue :=
  [jsOr (getPropD sect "section_id") (.str ""),
   jsOr (getPropD sect "section_name") (.str ""),
   .str (jsToStr (getPropD question "id") ++ "." ++ platform),
   .str (jsToStr (getPropD question "question") ++ " - " ++ platform),
   jsOr (getPropD question "context") (.str ""),
   jsOr (getPropD config "type") (.str "url"),
   jsOr (getPropD config "required") (.bool false),
   .str "format: url",
   .str (formatMapsTo (getPropD question "maps_to") ++ "." ++ platform),
   .str "", .str "", .str ""]

/-- The validation string the `file_upload` branch writes over the
parent row's field 7 (`jsonParser.js` 140–147), as a total function
(array-or-falsy `file_types` assumed). -/
def fileUploadValidation (question : JSValue) : String :=
  String.intercalate ", "
    ((if truthy (getPropD question "file_types") then
        ["file_types: " ++ jsJoin ","
          (match getPropD question "file_types" with
           | .arr xs => xs.toList
           | _ => [])]
      else []) ++
     (if truthy (getPropD question "max_size") then
        ["max_size: " ++ jsToStr (getPropD question "max_size")]
      else []))

/-- Modelled from the spec: the nullish-coalescing operator `??` that
§4.2 uses in the child-row validation formula
`formatValidation(fieldConfig.validation ?? fieldConfig.maxLength)`
(the source `jsonParser.js` line 99 instead uses `||`). -/
def jsNullish (a b : JSValue) : JSValue :=
  match a with
  | .null => b
  | .undefined => b
  | _ => a

/-! ## Concrete documents used as witnesses and counterexamples -/

/-- The standard text question of the spec's end-to-end scenario (§8.7). -/
def q1ex : JSValue := .objL [("id", .str "q1"), ("question", .str "Name?"),
  ("type", .str "text")]

/-- The `social_links_object` question of the spec's end-to-end
scenario (§8.7). -/
def q2ex : JSValue := .objL [("id", .str "q2"), ("question", .str "Links"),
  ("type", .str "social_links_object"),
  ("fields", .objL [("twitter", .objL [("type", .str "url")])])]

/-- The spec's end-to-end scenario document (§8.7). -/
def scenarioDoc : JSValue := .objL [("template_name", .str "Contact"),
  ("conversation_flow", .objL [("sections", .arrL [.objL [("section_id", .str "s1"),
    ("section_name", .str "Basics"), ("questions", .arrL [q1ex, q2ex])]])])]

/-- A document that passes the orchestrator's root-level structural
check while its single section carries no `questions` array. -/
def noQuestionsDoc : JSValue := .objL [("template_name", .str "T"),
  ("conversation_flow", .objL [("sections", .arrL [.objL []])])]

/-- A section with no attributes (all row fields default). -/
def sEmptyEx : JSValue := .objL []

/-- The spec's §8.8 `file_upload` example: pre-existing validation,
`file_types: ["pdf","png"]`, `max_size: 5`. -/
def qFileUploadEx : JSValue := .objL [("id", .str "f1"), ("question", .str "Upload"),
  ("type", .str "file_upload"), ("validation", .str "required field"),
  ("file_types", .arrL [.str "pdf", .str "png"]), ("max_size", .num 5)]

/-- A `file_upload` question with `max_size: 0` — present (a number)
but falsy. -/
def qFileUploadZero : JSValue := .objL [("id", .str "f1"),
  ("type", .str "file_upload"), ("validation", .str "required field"),
  ("max_size", .num 0)]

/-- A `text_array` question for witnesses. -/
def qTextArrayEx : JSValue := .objL [("id", .str "t1"), ("type", .str "text_array"),
  ("validation", .str "required")]

/-- A `service_object` question whose single field has an
empty-string `validation` and a `max_length` — the input separating
`??` from `||`. -/
def qServiceCex : JSValue := .objL [("id", .str "svc"), ("question", .str "Service"),
  ("type", .str "service_object"),
  ("fields", .objL [("email", .objL [("validation", .str ""), ("max_length", .num 5)])])]

/-- A `service_object` question for the C7 witness. -/
def qServiceEx : JSValue := .objL [("id", .str "svc"), ("question", .str "Service"),
  ("type", .str "service_object"),
  ("fields", .objL [("name", .objL [("type", .str "text"), ("required", .bool true),
     ("max_length", .num 100)]),
   ("price", .objL [("default", .str "0")])])]

/-- Six rows whose identifiers (field 2) are `a, b, a, c, b, b` — the
spec's §8.4 duplicate-detection example. -/
def dupRowsEx : List (List JSValue) :=
  [[.str "s", .str "n", .str "a"], [.str "s", .str "n", .str "b"],
   [.str "s", .str "n", .str "a"], [.str "s", .str "n", .str "c"],
   [.str "s", .str "n", .str "b"], [.str "s", .str "n", .str "b"]]

/-- Whether an `Except` computation succeeded. -/
def exceptIsOk {α : Type} : Except String α → Bool
  | .ok _ => true
  | .error _ => false

/-! ## Theorems: decimal printing -/

theorem fromDigits_natDigitsAux : ∀ fuel n, n ≤ fuel →
    fromDigits (natDigitsAux fuel n) = n := by
  intro fuel
  induction fuel with
  | zero => intro n hn; interval_cases n; rfl
  | succ fuel ih =>
    intro n hn
    by_cases h0 : n = 0
    · subst h0; simp [natDigitsAux, fromDigits]
    · have hdiv : n / 10 ≤ fuel := by
        have : n / 10 < n := Nat.div_lt_self (Nat.pos_of_ne_zero h0) (by omega)
        omega
      simp only [natDigitsAux, h0, if_false, fromDigits]
      rw [ih (n / 10) hdiv]
      omega

theorem natDigitsAux_lt_ten : ∀ fuel n d, d ∈ natDigitsAux fuel n → d < 10 := by
  intro fuel
  induction fuel with
  | zero => intro n d hd; simp [natDigitsAux] at hd
  | succ fuel ih =>
    intro n d hd
    by_cases h0 : n = 0
    · subst h0; simp [natDigitsAux] at hd
    · simp only [natDigitsAux, h0, if_false, List.mem_cons] at hd
      rcases hd with h | h
      · subst h; exact Nat.mod_lt _ (by omega)
      · exact ih _ _ h

theorem digitChar_inj : ∀ d, d < 10 → ∀ e, e < 10 → digitChar d = digitChar e → d = e := by
  decide

theorem map_digitChar_inj : ∀ l₁ l₂ : List Nat, (∀ d ∈ l₁, d < 10) → (∀ d ∈ l₂, d < 10) →
    l₁.map digitChar = l₂.map digitChar → l₁ = l₂ := by
  intro l₁
  induction l₁ with
  | nil => intro l₂ _ _ h; cases l₂ <;> simp_all
  | cons d ds ih =>
    intro l₂ h₁ h₂ h
    cases l₂ with
    | nil => simp at h
    | cons e es =>
      simp only [List.map_cons, List.cons.injEq] at h
      have hd : d = e :=
        digitChar_inj d (h₁ d (by simp)) e (h₂ e (by simp)) h.1
      have ht : ds = es := ih es (fun x hx => h₁ x (by simp [hx]))
        (fun x hx => h₂ x (by simp [hx])) h.2
      rw [hd, ht]

theorem natToString_inj : ∀ n m, natToString n = natToString m → n = m := by
  intro n m h
  by_cases hn : n = 0 <;> by_cases hm : m = 0
  · omega
  · exfalso
    simp only [natToString, hn, if_true, hm, if_false] at h
    have hlist : ('0' :: []) = ((natDigitsAux m m).reverse).map digitChar := by
      have := congrArg String.data h
      simpa using this
    have : ([0] : List Nat).map digitChar = ((natDigitsAux m m).reverse).map digitChar := by
      simpa using hlist
    have hrev : ([0] : List Nat) = (natDigitsAux m m).reverse :=
      map_digitChar_inj _ _ (by decide)
        (fun d hd => natDigitsAux_lt_ten m m d (List.mem_reverse.mp hd)) this
    have hdig : natDigitsAux m m = [0] := by
      have := congrArg List.reverse hrev
      simpa using this.symm
    have := fromDigits_natDigitsAux m m (le_refl m)
    rw [hdig] at this
    simp [fromDigits] at this
    omega
  · exfalso
    simp only [natToString, hn, if_false, hm, if_true] at h
    have hlist : ((natDigitsAux n n).reverse).map digitChar = ('0' :: []) := by
      have := congrArg String.data h
      simpa using this
    have : ((natDigitsAux n n).reverse).map digitChar = ([0] : List Nat).map digitChar := by
      simpa using hlist
    have hrev : (natDigitsAux n n).reverse = ([0] : List Nat) :=
      map_digitChar_inj _ _
        (fun d hd => natDigitsAux_lt_ten n n d (List.mem_reverse.mp hd)) (by decide) this
    have hdig : natDigitsAux n n = [0] := by
      have := congrArg List.reverse hrev
      simpa using this
    have := fromDigits_natDigitsAux n n (le_refl n)
    rw [hdig] at this
    simp [fromDigits] at this
    omega
  · simp only [natToString, hn, hm, if_false] at h
    have hlist : ((natDigitsAux n n).reverse).map digitChar
        = ((natDigitsAux m m).reverse).map digitChar := by
      have := congrArg String.data h
      simpa using this
    have hrev := map_digitChar_inj _ _
      (fun d hd => natDigitsAux_lt_ten n n d (List.mem_reverse.mp hd))
      (fun d hd => natDigitsAux_lt_ten m m d (List.mem_reverse.mp hd)) hlist
    have hdig : natDigitsAux n n = natDigitsAux m m := by
      have := congrArg List.reverse hrev
      simpa using this
    have h₁ := fromDigits_natDigitsAux n n (le_refl n)
    have h₂ := fromDigits_natDigitsAux m m (le_refl m)
    rw [hdig] at h₁
    omega

theorem versionedName_inj (baseName : String) (k j : Nat)
    (h : versionedName baseName k = versionedName baseName j) : k = j := by
  unfold versionedName at h
  have hd := congrArg String.data h
  simp only [String.data_append] at hd
  have h3 := List.append_cancel_left hd
  exact natToString_inj k j (String.ext h3)

/-! ## Theorems: basic bridges for the JS semantics -/

theorem getProp_ok (v : JSValue) (key : String) (h : jsDefined v = true) :
    getProp v key = .ok (getPropD v key) := by
  cases v <;> simp [jsDefined] at h <;> rfl

theorem mapME_eq_map {α β : Type} (f : α → Except String β) (g : α → β)
    (l : List α) (h : ∀ x ∈ l, f x = .ok (g x)) :
    mapME f l = .ok (l.map g) := by
  induction l with
  | nil => rfl
  | cons x xs ih =>
    simp only [mapME, h x (by simp), List.map_cons]
    rw [ih (fun y hy => h y (by simp [hy]))]

theorem mapME_exists_ok {α β : Type} (f : α → Except String β) (l : List α)
    (h : ∀ x ∈ l, ∃ y, f x = .ok y) :
    ∃ ys, mapME f l = .ok ys := by
  induction l with
  | nil => exact ⟨[], rfl⟩
  | cons x xs ih =>
    obtain ⟨y, hy⟩ := h x (by simp)
    obtain ⟨ys, hys⟩ := ih (fun z hz => h z (by simp [hz]))
    exact ⟨y :: ys, by simp only [mapME, hy, hys]⟩

theorem mapME_isOk {α β : Type} (f : α → Except String β) (l : List α) :
    exceptIsOk (mapME f l) = l.all (fun x => exceptIsOk (f x)) := by
  induction l with
  | nil => rfl
  | cons x xs ih =>
    simp only [mapME, List.all_cons]
    cases hfx : f x with
    | error e => simp [exceptIsOk, hfx]
    | ok y =>
      cases hrest : mapME f xs with
      | error e =>
        rw [hrest] at ih
        simp only [exceptIsOk] at ih
        simp [exceptIsOk, hfx, hrest, ← ih]
      | ok ys =>
        rw [hrest] at ih
        simp only [exceptIsOk] at ih
        simp [exceptIsOk, hfx, hrest, ← ih]

theorem exbind_ok {α β : Type} (a : α) (f : α → Except String β) :
    (Except.ok (ε := String) a >>= f) = f a := rfl

theorem expure {α : Type} (a : α) : (pure a : Except String α) = .ok a := rfl

theorem optionEntry_isOk (opt : JSValue) :
    exceptIsOk (optionEntry opt) = jsDefined opt := by
  cases opt <;> rfl

theorem optionEntry_eq {opt : JSValue} (h : jsDefined opt = true) :
    optionEntry opt = .ok (jsOr (getPropD opt "value") (getPropD opt "label")) := by
  cases opt <;> first | rfl | simp [jsDefined] at h

theorem formatOptions_obj_branch (l : List JSValue) :
    exceptIsOk (match mapME optionEntry l with
      | .error e => Except.error e
      | .ok mapped => Except.ok (jsJoin " | " mapped)) = l.all jsDefined := by
  have hmap := mapME_isOk optionEntry l
  simp only [optionEntry_isOk] at hmap
  cases hm : mapME optionEntry l with
  | error e => rw [hm] at hmap; exact hmap
  | ok mapped => rw [hm] at hmap; exact hmap

theorem formatOptions_isOk (v : JSValue) :
    exceptIsOk (formatOptions v) = optionsSafe v := by
  cases v with
  | undefined => rfl
  | null => rfl
  | bool b => unfold formatOptions; split <;> rfl
  | num n => unfold formatOptions; split <;> rfl
  | str s => unfold formatOptions; split <;> rfl
  | obj ps => rfl
  | arr xs =>
    cases xs with
    | nil => rfl
    | cons hd tl =>
      cases hd with
      | undefined => rfl
      | bool b => rfl
      | num n => rfl
      | str s => rfl
      | null => exact formatOptions_obj_branch (JSValue.null :: tl.toList)
      | arr ys => exact formatOptions_obj_branch (JSValue.arr ys :: tl.toList)
      | obj ps => exact formatOptions_obj_branch (JSValue.obj ps :: tl.toList)

theorem formatOptions_eq_of_safe {v : JSValue} (h : optionsSafe v = true) :
    formatOptions v = .ok (formatOptionsD v) := by
  have hok := formatOptions_isOk v
  rw [h] at hok
  cases hfo : formatOptions v with
  | error e => rw [hfo] at hok; simp [exceptIsOk] at hok
  | ok s => simp only [formatOptionsD, hfo]

theorem getProp_okD {v : JSValue} (h : jsDefined v = true) :
    ∀ key, getProp v key = .ok (getPropD v key) :=
  fun key => getProp_ok v key h

theorem processStandardQuestion_eq {question sect : JSValue}
    (hq : jsDefined question = true) (hs : jsDefined sect = true)
    (ho : optionsSafe (getPropD question "options") = true) :
    processStandardQuestion question sect = .ok (stdRow question sect) := by
  simp only [processStandardQuestion, getProp_okD hq, getProp_okD hs, exbind_ok,
    formatOptions_eq_of_safe ho, expure, stdRow]

theorem serviceChildEntry_eq {question sect cfg : JSValue} (fieldName : String)
    (hq : jsDefined question = true) (hs : jsDefined sect = true)
    (hc : jsDefined cfg = true) :
    serviceChildEntry question sect fieldName cfg
      = .ok (serviceChildRowD question sect fieldName cfg) := by
  simp only [serviceChildEntry, getProp_okD hq, getProp_okD hs, getProp_okD hc,
    exbind_ok, expure, serviceChildRowD]

theorem socialChildEntry_eq {question sect cfg : JSValue} (platform : String)
    (hq : jsDefined question = true) (hs : jsDefined sect = true)
    (hc : jsDefined cfg = true) :
    socialChildEntry question sect platform cfg
      = .ok (socialChildRowD question sect platform cfg) := by
  simp only [socialChildEntry, getProp_okD hq, getProp_okD hs, getProp_okD hc,
    exbind_ok, expure, socialChildRowD]

theorem processComplexType_service {question sect : JSValue} {t : String}
    (hq : jsDefined question = true) (hs : jsDefined sect = true)
    (ho : optionsSafe (getPropD question "options") = true)
    (htype : getPropD question "type" = .str t)
    (ht : t = "service_object" ∨ t = "testimonial_object")
    (hf : truthy (getPropD question "fields") = true)
    (hcfg : ∀ kv ∈ jsEntries (getPropD question "fields"), jsDefined kv.2 = true) :
    processComplexType question sect
      = .ok (stdRow question sect ::
          (jsEntries (getPropD question "fields")).map
            (fun kv => serviceChildRowD question sect kv.1 kv.2)) := by
  have hmap : mapME (fun kv => serviceChildEntry question sect kv.1 kv.2)
      (jsEntries (getPropD question "fields"))
      = .ok ((jsEntries (getPropD question "fields")).map
          (fun kv => serviceChildRowD question sect kv.1 kv.2)) :=
    mapME_eq_map _ _ _ (fun kv hkv => serviceChildEntry_eq kv.1 hq hs (hcfg kv hkv))
  rcases ht with ht | ht <;> subst ht <;>
    simp [processComplexType, processStandardQuestion_eq hq hs ho, exbind_ok,
      getProp_okD hq, htype, hf, hmap, expure]

theorem processComplexType_service_nofields {question sect : JSValue} {t : String}
    (hq : jsDefined question = true) (hs : jsDefined sect = true)
    (ho : optionsSafe (getPropD question "options") = true)
    (htype : getPropD question "type" = .str t)
    (ht : t = "service_object" ∨ t = "testimonial_object")
    (hf : truthy (getPropD question "fields") = false) :
    processComplexType question sect = .ok [stdRow question sect] := by
  rcases ht with ht | ht <;> subst ht <;>
    simp [processComplexType, processStandardQuestion_eq hq hs ho, exbind_ok,
      getProp_okD hq, htype, hf, expure]

theorem processComplexType_social {question sect : JSValue}
    (hq : jsDefined question = true) (hs : jsDefined sect = true)
    (ho : optionsSafe (getPropD question "options") = true)
    (htype : getPropD question "type" = .str "social_links_object")
    (hf : truthy (getPropD question "fields") = true)
    (hcfg : ∀ kv ∈ jsEntries (getPropD question "fields"), jsDefined kv.2 = true) :
    processComplexType question sect
      = .ok (stdRow question sect ::
          (jsEntries (getPropD question "fields")).map
            (fun kv => socialChildRowD question sect kv.1 kv.2)) := by
  have hmap : mapME (fun kv => socialChildEntry question sect kv.1 kv.2)
      (jsEntries (getPropD question "fields"))
      = .ok ((jsEntries (getPropD question "fields")).map
          (fun kv => socialChildRowD question sect kv.1 kv.2)) :=
    mapME_eq_map _ _ _ (fun kv hkv => socialChildEntry_eq kv.1 hq hs (hcfg kv hkv))
  simp [processComplexType, processStandardQuestion_eq hq hs ho, exbind_ok,
    getProp_okD hq, htype, hf, hmap, expure]

theorem processComplexType_social_nofields {question sect : JSValue}
    (hq : jsDefined question = true) (hs : jsDefined sect = true)
    (ho : optionsSafe (getPropD question "options") = true)
    (htype : getPropD question "type" = .str "social_links_object")
    (hf : truthy (getPropD question "fields") = false) :
    processComplexType question sect = .ok [stdRow question sect] := by
  simp [processComplexType, processStandardQuestion_eq hq hs ho, exbind_ok,
    getProp_okD hq, htype, hf, expure]

theorem processComplexType_textArray {question sect : JSValue}
    (hq : jsDefined question = true) (hs : jsDefined sect = true)
    (ho : optionsSafe (getPropD question "options") = true)
    (htype : getPropD question "type" = .str "text_array") :
    processComplexType question sect
      = .ok [(stdRow question sect).set 7 (.str ("max_items: "
          ++ jsToStr (jsOr (getPropD question "max_items") (.num 10)) ++ ", "
          ++ formatValidation (getPropD question "validation")))] := by
  simp [processComplexType, processStandardQuestion_eq hq hs ho, exbind_ok,
    getProp_okD hq, htype, expure, stdRow, List.getD, jsToStr]

theorem processComplexType_fileUpload {question sect : JSValue}
    (hq : jsDefined question = true) (hs : jsDefined sect = true)
    (ho : optionsSafe (getPropD question "options") = true)
    (htype : getPropD question "type" = .str "file_upload")
    (hft : truthy (getPropD question "file_types") = false
      ∨ ∃ xs, getPropD question "file_types" = .arr xs) :
    processComplexType question sect
      = .ok [(stdRow question sect).set 7 (.str (fileUploadValidation question))] := by
  rcases hft with hft | ⟨xs, hft⟩
  · simp [processComplexType, processStandardQuestion_eq hq hs ho, exbind_ok,
      getProp_okD hq, htype, hft, expure, fileUploadValidation]
  · simp [processComplexType, processStandardQuestion_eq hq hs ho, exbind_ok,
      getProp_okD hq, htype, hft, expure, fileUploadValidation, asArray, truthy]

theorem processComplexType_ok_of_safe {q sect : JSValue}
    (hqs : questionSafe q = true) (hs : jsDefined sect = true)
    (hc : isComplexType (getPropD q "type") = true) :
    ∃ rows, processComplexType q sect = .ok rows := by
  unfold questionSafe at hqs
  simp only [Bool.and_eq_true] at hqs
  obtain ⟨⟨hq, ho⟩, hcond⟩ := hqs
  cases hqt : getPropD q "type" with
  | str t =>
    rw [hqt] at hc hcond
    unfold isComplexType at hc
    simp only [Bool.or_eq_true, decide_eq_true_eq] at hc
    rcases hc with ((((h1 | h2) | h3) | h4) | h5)
    · subst h1
      simp only [Bool.and_eq_true] at hcond
      have hfield := hcond.1
      simp only [reduceIte] at hfield
      rcases Bool.eq_false_or_eq_true (truthy (getPropD q "fields")) with htf | htf
      · unfold fieldsSafe at hfield
        rw [htf] at hfield
        have hall : ∀ kv ∈ jsEntries (getPropD q "fields"), jsDefined kv.2 = true := by
          have h2 : (jsEntries (getPropD q "fields")).all (fun kv => jsDefined kv.2) = true := by
            simpa using hfield
          simpa [List.all_eq_true] using h2
        exact ⟨_, processComplexType_service hq hs ho hqt (Or.inl rfl) htf hall⟩
      · exact ⟨_, processComplexType_service_nofields hq hs ho hqt (Or.inl rfl) htf⟩
    · subst h2
      simp only [Bool.and_eq_true] at hcond
      have hfield := hcond.1
      simp only [reduceIte] at hfield
      rcases Bool.eq_false_or_eq_true (truthy (getPropD q "fields")) with htf | htf
      · unfold fieldsSafe at hfield
        rw [htf] at hfield
        have hall : ∀ kv ∈ jsEntries (getPropD q "fields"), jsDefined kv.2 = true := by
          have h2 : (jsEntries (getPropD q "fields")).all (fun kv => jsDefined kv.2) = true := by
            simpa using hfield
          simpa [List.all_eq_true] using h2
        exact ⟨_, processComplexType_service hq hs ho hqt (Or.inr rfl) htf hall⟩
      · exact ⟨_, processComplexType_service_nofields hq hs ho hqt (Or.inr rfl) htf⟩
    · subst h3
      simp only [Bool.and_eq_true] at hcond
      have hfield := hcond.1
      simp only [reduceIte] at hfield
      rcases Bool.eq_false_or_eq_true (truthy (getPropD q "fields")) with htf | htf
      · unfold fieldsSafe at hfield
        rw [htf] at hfield
        have hall : ∀ kv ∈ jsEntries (getPropD q "fields"), jsDefined kv.2 = true := by
          have h2 : (jsEntries (getPropD q "fields")).all (fun kv => jsDefined kv.2) = true := by
            simpa using hfield
          simpa [List.all_eq_true] using h2
        exact ⟨_, processComplexType_social hq hs ho hqt htf hall⟩
      · exact ⟨_, processComplexType_social_nofields hq hs ho hqt htf⟩
    · subst h4
      exact ⟨_, processComplexType_textArray hq hs ho hqt⟩
    · subst h5
      simp only [Bool.and_eq_true] at hcond
      have hfile := hcond.2
      simp only [reduceIte] at hfile
      refine ⟨_, processComplexType_fileUpload hq hs ho hqt ?_⟩
      cases hft : getPropD q "file_types" with
      | arr xs => exact Or.inr ⟨xs, rfl⟩
      | undefined => exact Or.inl rfl
      | null => exact Or.inl rfl
      | bool b => rw [hft] at hfile; exact Or.inl (by simpa using hfile)
      | num n => rw [hft] at hfile; exact Or.inl (by simpa using hfile)
      | str s => rw [hft] at hfile; exact Or.inl (by simpa using hfile)
      | obj ps => rw [hft] at hfile; exact Or.inl (by simpa using hfile)
  | undefined => rw [hqt] at hc; simp [isComplexType] at hc
  | null => rw [hqt] at hc; simp [isComplexType] at hc
  | bool b => rw [hqt] at hc; simp [isComplexType] at hc
  | num n => rw [hqt] at hc; simp [isComplexType] at hc
  | arr xs => rw [hqt] at hc; simp [isComplexType] at hc
  | obj ps => rw [hqt] at hc; simp [isComplexType] at hc

theorem flattenQuestion_ok {sect q : JSValue}
    (hqs : questionSafe q = true) (hs : jsDefined sect = true) :
    ∃ rows, flattenQuestion sect q = .ok rows := by
  have hq : jsDefined q = true := by
    unfold questionSafe at hqs
    simp only [Bool.and_eq_true] at hqs
    exact hqs.1.1
  have ho : optionsSafe (getPropD q "options") = true := by
    unfold questionSafe at hqs
    simp only [Bool.and_eq_true] at hqs
    exact hqs.1.2
  unfold flattenQuestion
  rw [getProp_okD hq]
  simp only [exbind_ok]
  by_cases hc : isComplexType (getPropD q "type") = true
  · rw [if_pos hc]
    exact processComplexType_ok_of_safe hqs hs hc
  · rw [if_neg hc]
    exact ⟨[stdRow q sect], by
      simp only [processStandardQuestion_eq hq hs ho, exbind_ok, expure]⟩

theorem flattenSection_ok {sect : JSValue} (hss : sectionSafe sect = true) :
    ∃ rows, flattenSection sect = .ok rows := by
  unfold sectionSafe at hss
  simp only [Bool.and_eq_true] at hss
  obtain ⟨hsd, hm⟩ := hss
  cases hq : getPropD sect "questions" with
  | arr qs =>
    rw [hq] at hm
    have hall : ∀ q ∈ qs.toList, questionSafe q = true := by
      simpa [List.all_eq_true] using hm
    obtain ⟨rss, hrss⟩ := mapME_exists_ok (flattenQuestion sect) qs.toList
      (fun q hqmem => flattenQuestion_ok (hall q hqmem) hsd)
    exact ⟨rss.flatten, by
      unfold flattenSection
      rw [getProp_okD hsd]
      simp only [exbind_ok, hq, asArray, hrss, expure]⟩
  | undefined => rw [hq] at hm; simp at hm
  | null => rw [hq] at hm; simp at hm
  | bool b => rw [hq] at hm; simp at hm
  | num n => rw [hq] at hm; simp at hm
  | str s => rw [hq] at hm; simp at hm
  | obj ps => rw [hq] at hm; simp at hm

theorem flattenIntakeJSON_ok {d : JSValue} (h : wellShapedDoc d = true) :
    exceptIsOk (flattenIntakeJSON d) = true := by
  unfold wellShapedDoc at h
  simp only [Bool.and_eq_true] at h
  obtain ⟨⟨hd, hcf⟩, hm⟩ := h
  cases hsv : getPropD (getPropD d "conversation_flow") "sections" with
  | arr secs =>
    rw [hsv] at hm
    have hall : ∀ sect ∈ secs.toList, sectionSafe sect = true := by
      simpa [List.all_eq_true] using hm
    obtain ⟨rowss, hrowss⟩ := mapME_exists_ok flattenSection secs.toList
      (fun sect hsm => flattenSection_ok (hall sect hsm))
    unfold flattenIntakeJSON
    rw [getProp_okD hd]
    simp only [exbind_ok]
    rw [getProp_okD hcf]
    simp only [exbind_ok, hsv, asArray, hrowss, expure]
    rfl
  | undefined => rw [hsv] at hm; simp at hm
  | null => rw [hsv] at hm; simp at hm
  | bool b => rw [hsv] at hm; simp at hm
  | num n => rw [hsv] at hm; simp at hm
  | str s => rw [hsv] at hm; simp at hm
  | obj ps => rw [hsv] at hm; simp at hm

theorem probeVersion_spec (existing : List String) (baseName : String) :
    ∀ fuel v, (∃ j, j ≤ fuel ∧ versionedName baseName (v + j) ∉ existing) →
    ∃ k, v ≤ k ∧ probeVersion existing baseName fuel v = versionedName baseName k ∧
      versionedName baseName k ∉ existing ∧
      ∀ i, v ≤ i → i < k → versionedName baseName i ∈ existing := by
  intro fuel
  induction fuel with
  | zero =>
    rintro v ⟨j, hj, hfree⟩
    have hj0 : j = 0 := by omega
    subst hj0
    simp only [Nat.add_zero] at hfree
    exact ⟨v, le_refl v, rfl, hfree, fun i h1 h2 => absurd h2 (by omega)⟩
  | succ fuel ih =>
    rintro v ⟨j, hj, hfree⟩
    by_cases hin : versionedName baseName v ∈ existing
    · have hj0 : j ≠ 0 := by
        intro h
        subst h
        simp only [Nat.add_zero] at hfree
        exact hfree hin
      obtain ⟨k, hk1, hk2, hk3, hk4⟩ := ih (v + 1)
        ⟨j - 1, by omega, by
          have : v + 1 + (j - 1) = v + j := by omega
          rw [this]
          exact hfree⟩
      refine ⟨k, by omega, ?_, hk3, ?_⟩
      · unfold probeVersion
        rw [if_pos hin]
        exact hk2
      · intro i h1 h2
        rcases Nat.eq_or_lt_of_le h1 with heq | hlt
        · exact heq ▸ hin
        · exact hk4 i hlt h2
    · exact ⟨v, le_refl v, by unfold probeVersion; rw [if_neg hin], hin,
        fun i h1 h2 => absurd h2 (by omega)⟩

theorem exists_free_version (existing : List String) (baseName : String) :
    ∃ j, j ≤ existing.length ∧ versionedName baseName (2 + j) ∉ existing := by
  by_contra hcon
  push_neg at hcon
  have hsub : ((List.range (existing.length + 1)).map
      (fun j => versionedName baseName (2 + j))) ⊆ existing := by
    intro x hx
    simp only [List.mem_map, List.mem_range] at hx
    obtain ⟨j, hj, rfl⟩ := hx
    exact hcon j (by omega)
  have hnd : ((List.range (existing.length + 1)).map
      (fun j => versionedName baseName (2 + j))).Nodup := by
    refine List.Nodup.map ?_ (List.nodup_range _)
    intro a b hab
    have := versionedName_inj baseName (2 + a) (2 + b) hab
    omega
  have hle := (List.subperm_of_subset hnd hsub).length_le
  simp only [List.length_map, List.length_range] at hle
  omega

theorem collectDups_mem (v : JSValue) : ∀ (ids seen dups : List JSValue),
    (v ∈ collectDups ids seen dups ↔
      v ∈ dups ∨ (v ∈ seen ∧ 0 < ids.count v) ∨ 2 ≤ ids.count v) := by
  intro ids
  induction ids with
  | nil => intro seen dups; simp [collectDups]
  | cons x rest ih =>
    intro seen dups
    simp only [collectDups]
    by_cases hxs : x ∈ seen
    · rw [if_pos hxs, if_pos hxs, ih]
      by_cases hvx : v = x
      · subst hvx
        constructor
        · intro _
          refine Or.inr (Or.inl ⟨hxs, ?_⟩)
          rw [List.count_cons_self]
          omega
        · intro _
          exact Or.inl (by simp)
      · have hcnt : (x :: rest).count v = rest.count v := by
          simp [List.count_cons, hvx]
        rw [hcnt]
        constructor
        · rintro (hd | h)
          · simp only [List.mem_append, List.mem_singleton] at hd
            rcases hd with hd | hd
            · exact Or.inl hd
            · exact absurd hd hvx
          · exact Or.inr h
        · rintro (hd | h)
          · exact Or.inl (by simp [hd])
          · exact Or.inr h
    · rw [if_neg hxs, if_neg hxs, ih]
      by_cases hvx : v = x
      · subst hvx
        rw [List.count_cons_self]
        constructor
        · rintro (hd | (⟨hmem, hc⟩ | hc))
          · exact Or.inl hd
          · simp only [List.mem_append, List.mem_singleton] at hmem
            rcases hmem with hmem | _
            · exact absurd hmem hxs
            · exact Or.inr (Or.inr (by omega))
          · exact Or.inr (Or.inr (by omega))
        · rintro (hd | (⟨hmem, _⟩ | hc))
          · exact Or.inl hd
          · exact absurd hmem hxs
          · have : 0 < rest.count v := by omega
            exact Or.inr (Or.inl ⟨by simp, this⟩)
      · have hcnt : (x :: rest).count v = rest.count v := by
          simp [List.count_cons, hvx]
        rw [hcnt]
        have hseen : v ∈ seen ++ [x] ↔ v ∈ seen := by simp [hvx]
        rw [hseen]

theorem dedupKeepFirst_mem (v : JSValue) : ∀ (l seen : List JSValue),
    (v ∈ dedupKeepFirst l seen ↔ v ∈ l ∧ v ∉ seen) := by
  intro l
  induction l with
  | nil => intro seen; simp [dedupKeepFirst]
  | cons x xs ih =>
    intro seen
    simp only [dedupKeepFirst]
    by_cases hxs : x ∈ seen
    · rw [if_pos hxs, ih]
      constructor
      · rintro ⟨h1, h2⟩; exact ⟨by simp [h1], h2⟩
      · rintro ⟨h1, h2⟩
        simp only [List.mem_cons] at h1
        rcases h1 with h1 | h1
        · subst h1; exact absurd hxs h2
        · exact ⟨h1, h2⟩
    · rw [if_neg hxs]
      simp only [List.mem_cons, ih]
      by_cases hvx : v = x
      · subst hvx
        constructor
        · intro _; exact ⟨Or.inl rfl, hxs⟩
        · intro _; exact Or.inl rfl
      · constructor
        · rintro (h | ⟨h1, h2⟩)
          · exact absurd h hvx
          · refine ⟨Or.inr h1, ?_⟩
            intro hv
            exact h2 (by simp [hv])
        · rintro ⟨h1, h2⟩
          rcases h1 with h1 | h1
          · exact absurd h1 hvx
          · refine Or.inr ⟨h1, ?_⟩
            intro hv
            rcases hv with hv2 | hv2
            · exact hvx hv2
            · exact h2 hv2

theorem dedupKeepFirst_nodup : ∀ (l seen : List JSValue),
    (dedupKeepFirst l seen).Nodup := by
  intro l
  induction l with
  | nil => intro seen; exact List.nodup_nil
  | cons x xs ih =>
    intro seen
    simp only [dedupKeepFirst]
    by_cases hxs : x ∈ seen
    · rw [if_pos hxs]; exact ih seen
    · rw [if_neg hxs]
      refine List.nodup_cons.mpr ⟨?_, ih (x :: seen)⟩
      rw [dedupKeepFirst_mem]
      rintro ⟨_, h2⟩
      exact h2 (by simp)

theorem exbind_err {α β : Type} (e : String) (f : α → Except String β) :
    (Except.error (α := α) e >>= f) = .error e := rfl

theorem processIntakeJSONRun_error (d : JSValue) (ex : List String) (f : Bool) :
    ∃ e, processIntakeJSONRun d ex f = .error e := by
  unfold processIntakeJSONRun
  cases h1 : getProp d "template_name" with
  | error e => exact ⟨e, by simp [h1, exbind_err]⟩
  | ok tn =>
    simp only [h1, exbind_ok]
    split
    · exact ⟨_, rfl⟩
    · cases h2 : getProp d "conversation_flow" with
      | error e => exact ⟨e, by simp [h2, exbind_err]⟩
      | ok cf =>
        simp only [h2, exbind_ok]
        split
        · exact ⟨_, rfl⟩
        · cases h3 : getProp cf "sections" with
          | error e => exact ⟨e, by simp [h3, exbind_err]⟩
          | ok sv =>
            simp only [h3, exbind_ok]
            split
            · exact ⟨_, rfl⟩
            · cases h5 : flattenIntakeJSON d with
              | error e => exact ⟨e, by simp [h5, exbind_err]⟩
              | ok pd =>
                simp only [h5, exbind_ok]
                split
                · exact ⟨_, rfl⟩
                · exact ⟨_, rfl⟩

theorem processIntakeJSON_never_ok (d : JSValue) (ex : List String) (f : Bool) :
    ∀ n c m, processIntakeJSON d ex f ≠ ProcessResult.ok n c m := by
  intro n c m
  obtain ⟨e, he⟩ := processIntakeJSONRun_error d ex f
  unfold processIntakeJSON
  rw [he]
  intro h
  exact ProcessResult.noConfusion h

/-! ## Claim theorems -/

/-- C1: the claim says that for every JSON input passing the structural
and duplicate checks, `processIntakeJSON` returns a success result
`\x7bsuccess: true, sheetName, rowCount, message\x7d`.  The code cannot:
`main.js` line 71 reads `rows.length`, but no identifier `rows` is in
scope (the rows live in `parsedData.rows`), so the success object's
construction throws `ReferenceError: rows is not defined` and the
`catch` converts every run — including the spec's own end-to-end
scenario document, which passes every check — into a failure result. -/
theorem c1_processIntakeJSON_always_fails :
    (∀ (d : JSValue) (ex : List String) (f : Bool),
      ∃ e, processIntakeJSON d ex f = ProcessResult.fail e)
    ∧ processIntakeJSON scenarioDoc [] false = ProcessResult.fail "rows is not defined" := by
  refine ⟨fun d ex f => ?_, rfl⟩
  obtain ⟨e, he⟩ := processIntakeJSONRun_error d ex f
  exact ⟨e, by unfold processIntakeJSON; rw [he]⟩

/-- C2 counterexample: the claim says flattening cannot fail once the
root-level structural check passed, for any shape of sections or
questions.  `noQuestionsDoc` passes the root check (truthy
`template_name` and `conversation_flow.sections`), yet its section has
no `questions` array, so `section.questions.forEach` throws. -/
theorem c2_flatten_can_fail :
    rootCheckPasses noQuestionsDoc = true
    ∧ flattenIntakeJSON noQuestionsDoc
        = .error "TypeError: Cannot read properties of undefined (reading forEach)" :=
  ⟨rfl, rfl⟩

/-- C2 (amended): for every parsed document that is well-shaped in the
sense of the spec's data model — `conversation_flow.sections` an array
of sections, each section carrying an array of questions, nested field
configurations non-null, `file_types` an array when truthy, and
`options` avoiding the throwing `formatOptions` branch —
`flattenIntakeJSON` completes without failing. -/
theorem c2_flatten_total_on_wellshaped :
    ∀ d : JSValue, wellShapedDoc d = true → exceptIsOk (flattenIntakeJSON d) = true :=
  fun _ h => flattenIntakeJSON_ok h

/-- C2 witness: the spec's end-to-end scenario document is well-shaped
and flattening succeeds on it. -/
theorem c2_flatten_total_witness :
    exceptIsOk (flattenIntakeJSON scenarioDoc) = true :=
  c2_flatten_total_on_wellshaped scenarioDoc rfl

/-- C3 counterexample: the claim says all four formatters are total for
every input value, including arrays containing `null`.  `formatOptions`
is not: on `[null]`, `typeof null === "object"` selects the record
branch, whose callback reads `opt.value` on `null` and throws. -/
theorem c3_formatOptions_throws :
    formatOptions (JSValue.arrL [JSValue.null])
      = .error "TypeError: Cannot read properties of null (reading value)" := rfl

/-- C3 (amended): `formatValidation`, `formatMapsTo` and
`formatExamples` are total (they are plain functions into `String`),
all four yield `""` on `null`/`undefined`, and `formatOptions`
succeeds exactly on inputs that are not an array whose first element
has `typeof` `"object"` while some element is `null`/`undefined`
(purity is by construction: all four are functions of their argument
alone). -/
theorem c3_formatters_total :
    formatValidation JSValue.null = "" ∧ formatValidation JSValue.undefined = ""
    ∧ formatMapsTo JSValue.null = "" ∧ formatMapsTo JSValue.undefined = ""
    ∧ formatExamples JSValue.null = "" ∧ formatExamples JSValue.undefined = ""
    ∧ formatOptions JSValue.null = .ok "" ∧ formatOptions JSValue.undefined = .ok ""
    ∧ ∀ v, exceptIsOk (formatOptions v) = optionsSafe v :=
  ⟨rfl, rfl, rfl, rfl, rfl, rfl, rfl, rfl, formatOptions_isOk⟩

/-- C4 counterexample: the claim says every number `n` yields
`"max_length: n"`, in particular `formatValidation(0) = "max_length: 0"`.
But `0` is falsy, so the leading `if (!validation)` returns `""`. -/
theorem c4_formatValidation_zero :
    formatValidation (JSValue.num 0) = ""
    ∧ decide (formatValidation (JSValue.num 0) = "max_length: 0") = false :=
  ⟨rfl, rfl⟩

/-- C4 (amended): `formatValidation` yields `""` on `null`/`undefined`,
every string unchanged, `"max_length: n"` for every nonzero number
(`0`, being falsy, yields `""`), and for every mapping the entries
rendered `"k: v"` comma-joined in insertion (natural key) order. -/
theorem c4_formatValidation_cases :
    (formatValidation JSValue.null = "" ∧ formatValidation JSValue.undefined = "")
    ∧ (∀ s : String, formatValidation (JSValue.str s) = s)
    ∧ (∀ n : Int, n ≠ 0 →
        formatValidation (JSValue.num n) = "max_length: " ++ intToString n)
    ∧ formatValidation (JSValue.num 0) = ""
    ∧ (∀ ps : JSProps, formatValidation (JSValue.obj ps)
        = String.intercalate ", "
            (ps.toList.map (fun kv => kv.1 ++ ": " ++ jsToStr kv.2))) := by
  refine ⟨⟨rfl, rfl⟩, fun s => ?_, fun n hn => ?_, rfl, fun ps => ?_⟩
  · by_cases hs : s = ""
    · subst hs; rfl
    · simp [formatValidation, truthy, hs]
  · simp [formatValidation, truthy, hn]
  · simp [formatValidation, truthy, jsEntries]

/-- C4 witness: a nonzero number instance. -/
theorem c4_formatValidation_witness :
    formatValidation (JSValue.num 7) = "max_length: 7" :=
  c4_formatValidation_cases.2.2.1 7 (by decide)

/-- C5 counterexample: the claim says `"max_size: {maxSize}"` is
included whenever `maxSize` is present.  `qFileUploadZero` carries
`max_size: 0` — present but falsy — and the code's `if
(question.max_size)` omits it: the single row's validation field is
`""`, not `"max_size: 0"`. -/
theorem c5_maxSize_zero_omitted :
    (processComplexType qFileUploadZero sEmptyEx).map
        (fun rows => rows.map (fun r => r.getD 7 .undefined))
      = .ok [JSValue.str ""]
    ∧ decide (JSValue.str "" = JSValue.str "max_size: 0") = false :=
  ⟨rfl, rfl⟩

/-- C5 (amended): every `file_upload` question (per the data model:
defined question/section values, safe `options`, `file_types` an array
or falsy) contributes exactly one row, whose validation field is
overwritten — discarding whatever `formatValidation` computed into the
standard row — with the comma-joined list of `"file_types: ..."` (only
when `fileTypes` is truthy) and `"max_size: ..."` (only when `maxSize`
is truthy, so not for `0`); when neither is present the result is the
empty string.  The spec's §8.8 instance: pre-existing validation
`"required field"` with `fileTypes ["pdf","png"]` and `maxSize 5`
yields exactly `"file_types: pdf,png, max_size: 5"`. -/
theorem c5_fileUpload_overwrite :
    (∀ q sect : JSValue, jsDefined q = true → jsDefined sect = true →
      optionsSafe (getPropD q "options") = true →
      getPropD q "type" = .str "file_upload" →
      (truthy (getPropD q "file_types") = false
        ∨ ∃ xs, getPropD q "file_types" = .arr xs) →
      processComplexType q sect
        = .ok [(stdRow q sect).set 7 (.str (fileUploadValidation q))])
    ∧ (processComplexType qFileUploadEx sEmptyEx).map
        (fun rows => rows.map (fun r => r.getD 7 .undefined))
      = .ok [JSValue.str "file_types: pdf,png, max_size: 5"] :=
  ⟨fun _ _ hq hs ho ht hft => processComplexType_fileUpload hq hs ho ht hft, rfl⟩

/-- C5 witness: the spec's §8.8 `file_upload` example instantiates the
universal clause. -/
theorem c5_fileUpload_witness :
    processComplexType qFileUploadEx sEmptyEx
      = .ok [(stdRow qFileUploadEx sEmptyEx).set 7
          (.str (fileUploadValidation qFileUploadEx))] :=
  c5_fileUpload_overwrite.1 qFileUploadEx sEmptyEx rfl rfl rfl rfl (Or.inr ⟨_, rfl⟩)

/-- C6: every `text_array` question (defined question/section, safe
`options`) contributes exactly one row, whose validation field is
`"max_items: {maxItems or 10}, "` prepended to the validation string
the standard projection computed (`formatValidation` of the question's
`validation`); `max_items` falls back to `10` exactly when falsy
(absent included).  Instance: a `text_array` question with validation
`"required"` and no `max_items` yields `"max_items: 10, required"`. -/
theorem c6_textArray_prepend :
    (∀ q sect : JSValue, jsDefined q = true → jsDefined sect = true →
      optionsSafe (getPropD q "options") = true →
      getPropD q "type" = .str "text_array" →
      processComplexType q sect
        = .ok [(stdRow q sect).set 7 (.str ("max_items: "
            ++ jsToStr (jsOr (getPropD q "max_items") (.num 10)) ++ ", "
            ++ formatValidation (getPropD q "validation")))])
    ∧ (processComplexType qTextArrayEx sEmptyEx).map
        (fun rows => rows.map (fun r => r.getD 7 .undefined))
      = .ok [JSValue.str "max_items: 10, required"] :=
  ⟨fun _ _ hq hs ho ht => processComplexType_textArray hq hs ho ht, rfl⟩

/-- C6 witness: the `text_array` example instantiates the universal
clause. -/
theorem c6_textArray_witness :
    processComplexType qTextArrayEx sEmptyEx
      = .ok [(stdRow qTextArrayEx sEmptyEx).set 7 (.str ("max_items: "
          ++ jsToStr (jsOr (getPropD qTextArrayEx "max_items") (.num 10)) ++ ", "
          ++ formatValidation (getPropD qTextArrayEx "validation")))] :=
  c6_textArray_prepend.1 qTextArrayEx sEmptyEx rfl rfl rfl rfl

/-- C7 counterexample: the claim renders the child validation as
`formatValidation(fieldConfig.validation ?? fieldConfig.maxLength)`
(nullish coalescing), but the code (`jsonParser.js` 99) uses `||`.
For the field config `\x7bvalidation: "", max_length: 5\x7d` the two
disagree: `""` is non-nullish, so the claim's formula yields
`formatValidation("") = ""`, while the code takes the `||` fallback and
produces `"max_length: 5"` in the child row. -/
theorem c7_nullish_vs_or :
    (processComplexType qServiceCex sEmptyEx).map
        (fun rows => rows.map (fun r => r.getD 7 .undefined))
      = .ok [JSValue.str "", JSValue.str "max_length: 5"]
    ∧ formatValidation (jsNullish
        (getPropD (JSValue.objL [("validation", .str ""), ("max_length", .num 5)])
          "validation")
        (getPropD (JSValue.objL [("validation", .str ""), ("max_length", .num 5)])
          "max_length")) = ""
    ∧ decide (JSValue.str "max_length: 5" = JSValue.str "") = false :=
  ⟨rfl, rfl, rfl⟩

/-- C7 (amended): every `service_object`/`testimonial_object` question
with truthy `fields` (entries' configs defined, options safe)
contributes exactly `1 + N` rows: the standard parent row first, then
one child per field in declaration order with `questionId =
"{parentId}.{fieldName}"`, `prompt = "{parentPrompt} - {fieldName}"`,
inherited context, type defaulting to `"text"`, required defaulting to
`false`, validation `formatValidation(fieldConfig.validation ||
fieldConfig.maxLength)` (falsy-coalescing `||`, not `??`), `mapsTo =
"{formatMapsTo(parent.mapsTo)}.{fieldName}"`, default defaulting to
`""`, and empty examples and options — as recorded in
`serviceChildRowD`. -/
theorem c7_service_children :
    ∀ q sect : JSValue, jsDefined q = true → jsDefined sect = true →
      optionsSafe (getPropD q "options") = true →
      (getPropD q "type" = .str "service_object"
        ∨ getPropD q "type" = .str "testimonial_object") →
      truthy (getPropD q "fields") = true →
      (∀ kv ∈ jsEntries (getPropD q "fields"), jsDefined kv.2 = true) →
      processComplexType q sect
        = .ok (stdRow q sect ::
            (jsEntries (getPropD q "fields")).map
              (fun kv => serviceChildRowD q sect kv.1 kv.2)) := by
  intro q sect hq hs ho ht hf hcfg
  rcases ht with ht | ht
  · exact processComplexType_service hq hs ho ht (Or.inl rfl) hf hcfg
  · exact processComplexType_service hq hs ho ht (Or.inr rfl) hf hcfg

/-- C7 witness: a two-field `service_object` question instantiates the
amended claim. -/
theorem c7_service_children_witness :
    processComplexType qServiceEx sEmptyEx
      = .ok (stdRow qServiceEx sEmptyEx ::
          (jsEntries (getPropD qServiceEx "fields")).map
            (fun kv => serviceChildRowD qServiceEx sEmptyEx kv.1 kv.2)) := by
  apply c7_service_children qServiceEx sEmptyEx rfl rfl rfl (Or.inl rfl) rfl
  intro kv hkv
  have he : jsEntries (getPropD qServiceEx "fields")
      = [("name", JSValue.objL [("type", .str "text"), ("required", .bool true),
          ("max_length", .num 100)]),
         ("price", JSValue.objL [("default", .str "0")])] := rfl
  rw [he] at hkv
  simp only [List.mem_cons, List.not_mem_nil, or_false] at hkv
  rcases hkv with hkv | hkv <;> subst hkv <;> rfl

/-- C8: every `social_links_object` question with truthy `fields`
(configs defined, options safe) yields, after the parent row, one
child row per `(platform, config)` entry whose type defaults to
`"url"`, whose validation is the fixed literal `"format: url"`
regardless of config, whose `mapsTo` is `formatMapsTo(parent.mapsTo)`
concatenated with `".{platform}"`, and whose default, examples and
options are empty — as recorded in `socialChildRowD`.  In the spec's
§8.7 end-to-end scenario the document flattens to exactly 3 rows, the
third being `q2.twitter` with validation `"format: url"` and `mapsTo`
`".twitter"`. -/
theorem c8_social_children :
    (∀ q sect : JSValue, jsDefined q = true → jsDefined sect = true →
      optionsSafe (getPropD q "options") = true →
      getPropD q "type" = .str "social_links_object" →
      truthy (getPropD q "fields") = true →
      (∀ kv ∈ jsEntries (getPropD q "fields"), jsDefined kv.2 = true) →
      processComplexType q sect
        = .ok (stdRow q sect ::
            (jsEntries (getPropD q "fields")).map
              (fun kv => socialChildRowD q sect kv.1 kv.2)))
    ∧ flattenIntakeJSON scenarioDoc = .ok ⟨[
        [.str "s1", .str "Basics", .str "q1", .str "Name?", .str "", .str "text",
         .bool true, .str "", .str "", .str "", .str "", .str ""],
        [.str "s1", .str "Basics", .str "q2", .str "Links", .str "",
         .str "social_links_object", .bool true, .str "", .str "", .str "",
         .str "", .str ""],
        [.str "s1", .str "Basics", .str "q2.twitter", .str "Links - twitter",
         .str "", .str "url", .bool false, .str "format: url", .str ".twitter",
         .str "", .str "", .str ""]], 1⟩ :=
  ⟨fun _ _ hq hs ho ht hf hcfg =>
    processComplexType_social hq hs ho ht hf hcfg, rfl⟩

/-- C8 witness: the scenario's `social_links_object` question
instantiates the universal clause. -/
theorem c8_social_children_witness :
    processComplexType q2ex sEmptyEx
      = .ok (stdRow q2ex sEmptyEx ::
          (jsEntries (getPropD q2ex "fields")).map
            (fun kv => socialChildRowD q2ex sEmptyEx kv.1 kv.2)) := by
  apply c8_social_children.1 q2ex sEmptyEx rfl rfl rfl rfl rfl
  intro kv hkv
  have he : jsEntries (getPropD q2ex "fields")
      = [("twitter", JSValue.objL [("type", .str "url")])] := rfl
  rw [he] at hkv
  simp only [List.mem_cons, List.not_mem_nil, or_false] at hkv
  subst hkv
  rfl

/-- C9: for every template name, existing-name list and `forceNew`
flag: when `forceNew` is false and `"Intake_{templateName}"` is not
taken, `getVersionedSheetName` returns it; otherwise it returns
`"Intake_{templateName}_v{k}"` for the smallest `k ≥ 2` whose name is
not taken.  With existing names `Intake_X, Intake_X_v2, Intake_X_v3`
and `forceNew = false` it returns `"Intake_X_v4"`. -/
theorem c9_versioned_sheet_name :
    (∀ (templateName : String) (existing : List String) (forceNew : Bool),
      (forceNew = false → ("Intake_" ++ templateName) ∉ existing →
        getVersionedSheetName templateName existing forceNew
          = "Intake_" ++ templateName)
      ∧ ((forceNew = true ∨ ("Intake_" ++ templateName) ∈ existing) →
        ∃ k, 2 ≤ k
          ∧ getVersionedSheetName templateName existing forceNew
              = versionedName ("Intake_" ++ templateName) k
          ∧ versionedName ("Intake_" ++ templateName) k ∉ existing
          ∧ ∀ j, 2 ≤ j → j < k →
              versionedName ("Intake_" ++ templateName) j ∈ existing))
    ∧ getVersionedSheetName "X" ["Intake_X", "Intake_X_v2", "Intake_X_v3"] false
        = "Intake_X_v4" := by
  refine ⟨fun templateName existing forceNew => ⟨fun hf hnm => ?_, fun h => ?_⟩, rfl⟩
  · unfold getVersionedSheetName
    simp [hf, hnm]
  · obtain ⟨j, hj, hfree⟩ := exists_free_version existing ("Intake_" ++ templateName)
    obtain ⟨k, hk1, hk2, hk3, hk4⟩ :=
      probeVersion_spec existing ("Intake_" ++ templateName) (existing.length + 1) 2
        ⟨j, by omega, hfree⟩
    refine ⟨k, hk1, ?_, hk3, hk4⟩
    unfold getVersionedSheetName
    rcases h with h | h
    · simp only [h]
      exact hk2
    · simp only [h, decide_True, Bool.not_true, Bool.and_false, Bool.false_eq_true,
        if_false]
      simpa [h] using hk2
  
/-- C9 witness: the collision-walk instance — with `Intake_X`,
`Intake_X_v2`, `Intake_X_v3` taken, the resolver lands on the smallest
free version number. -/
theorem c9_versioned_sheet_name_witness :
    ∃ k, 2 ≤ k
      ∧ getVersionedSheetName "X" ["Intake_X", "Intake_X_v2", "Intake_X_v3"] false
          = versionedName ("Intake_" ++ "X") k
      ∧ versionedName ("Intake_" ++ "X") k ∉ ["Intake_X", "Intake_X_v2", "Intake_X_v3"]
      ∧ ∀ j, 2 ≤ j → j < k →
          versionedName ("Intake_" ++ "X") j ∈ ["Intake_X", "Intake_X_v2", "Intake_X_v3"] :=
  (c9_versioned_sheet_name.1 "X" ["Intake_X", "Intake_X_v2", "Intake_X_v3"] false).2
    (Or.inr (by decide))

/-- C10: for every row sequence, `checkDuplicateIds` returns, with no
repetitions, exactly the field-2 identifiers occurring more than once
among the rows; on the spec's §8.4 instance (identifiers
`a, b, a, c, b, b`) it returns `["a", "b"]`. -/
theorem c10_duplicate_identifiers :
    (∀ rows : List (List JSValue),
      (checkDuplicateIds rows).Nodup
      ∧ ∀ v, (v ∈ checkDuplicateIds rows
          ↔ 2 ≤ (rows.map (fun r => r.getD 2 .undefined)).count v))
    ∧ checkDuplicateIds dupRowsEx = [.str "a", .str "b"] := by
  refine ⟨fun rows => ⟨dedupKeepFirst_nodup _ _, fun v => ?_⟩, rfl⟩
  unfold checkDuplicateIds
  rw [dedupKeepFirst_mem, collectDups_mem]
  simp
